import Mathlib

/-!
Verification of the captcha generation library (`src/lib.rs`).

The development shallowly embeds the Rust code: `f32` values are modelled as
exact rationals (`ℚ`) for the computable pipeline and as reals (`ℝ`) for the
trigonometric bounding-box function, machine integers are modelled as `ℕ`/`ℤ`
with explicit wrapping where the Rust code can wrap, and every fallible or
panicking operation is reflected in an explicit `Outcome` type.  External
collaborators (the font rasterizer, the stroke rasterizer, the PNG encoder and
the random source) are oracle fields of an `Env` record, so theorems quantify
over their behaviour.
-/

namespace Captcha

/-! ## Configuration (lines 9-27 of `lib.rs`) -/

/-- Structure `Config` from `lib.rs`: challenge length, canvas width/height (u32,
modelled as `ℕ`), foreground and background colors (3 bytes each). -/
structure Config where
  length : ℕ
  width : ℕ
  height : ℕ
  color : ℕ × ℕ × ℕ
  background_color : ℕ × ℕ × ℕ
deriving DecidableEq

/-- Default configuration, `Config::default()` (lines 17-27). -/
def Config.default : Config :=
  { length := 4, width := 240, height := 80,
    color := (0, 0, 0), background_color := (255, 255, 255) }

/-! ## Charset sampler (lines 31-37) -/

/-- The character-set literal of line 31 of `lib.rs`, as the list of its
characters (`.chars().collect()`). -/
def charset : List Char :=
  "23456789ABCDEFGHJKLMNPQRSTUVWXYZabcdefghijkmnpqrstuvwxyz".toList

/-- One draw `charset.choose(&mut rng).unwrap()`: a uniform draw of one element of a
nonempty slice is a uniform index into it; the random source supplies the
index `v` (already reduced modulo the slice length, as `choose` does). -/
def sampleChar (v : ℕ) : Char :=
  charset.get ⟨v % charset.length, Nat.mod_lt v (by decide)⟩

/-- Lines 35-37: the challenge text, one uniform draw per position.
`pick` is the stream of random index draws. -/
def captchaText (len : ℕ) (pick : ℕ → ℕ) : List Char :=
  (List.range len).map (fun i => sampleChar (pick i))

/-- The alphabet exactly as the specification describes it: digits 2-9,
uppercase letters excluding I and O, lowercase letters excluding l
(so including lowercase o).  Used only to compare the spec's description
against the alphabet the code actually uses. -/
def specDescribedAlphabet : List Char :=
  "23456789ABCDEFGHJKLMNPQRSTUVWXYZabcdefghijkmnopqrstuvwxyz".toList

/-! ## Numeric helpers modelling Rust casts and arithmetic -/

/-- Rust `as` cast from a (nonnegative-or-negative) `f32` to `u32`:
truncation toward zero with saturation at the bounds. -/
def f32ToU32 (q : ℚ) : ℕ :=
  if q ≤ 0 then 0 else min (Int.toNat ⌊q⌋) (2 ^ 32 - 1)

/-- Rust `as` cast from `f32` to `i64`: truncation toward zero with
saturation at the bounds. -/
def f32ToI64 (q : ℚ) : ℤ :=
  if 0 ≤ q then min ⌊q⌋ (2 ^ 63 - 1) else max (-⌊-q⌋) (-(2 ^ 63))

/-- Rust `i64` division: truncation toward zero. -/
def i64Div (a b : ℤ) : ℤ := Int.tdiv a b

/-- Rust `u32` subtraction in release mode: wrapping.  Both operands are
assumed `< 2^32` (they are images' u32 dimensions). -/
def u32WrapSub (a b : ℕ) : ℕ := (a + 2 ^ 32 - b) % 2 ^ 32

/-- Rust `rng.random_range(lo..hi)` for integers, driven by a raw draw `v`
from the random stream: a uniform value in `[lo, hi)`.  The Rust call panics
on an empty range; that check is made by the callers in this embedding. -/
def randRange (lo hi v : ℕ) : ℕ := lo + v % (hi - lo)

/-! ## Images and compositing -/

/-- One RGBA pixel (r, g, b, a), each channel an 8-bit value. -/
abbrev Pixel := ℕ × ℕ × ℕ × ℕ

/-- An RGBA image: pixel dimensions plus a pixel function.  Coordinates at or
beyond the dimensions are phantom (never read by the operations below). -/
structure Image where
  width : ℕ
  height : ℕ
  pix : ℕ → ℕ → Pixel

/-- Fresh buffer `RgbaImage::new(w, h)`: all pixels transparent black. -/
def Image.new (w h : ℕ) : Image := ⟨w, h, fun _ _ => (0, 0, 0, 0)⟩

/-- Modelled from the spec: standard "over" alpha blending of one source
pixel onto one destination pixel, as performed by the external `image`
collaborator during overlay (§4.5 of the spec). -/
def blendOver (dst src : Pixel) : Pixel :=
  let (dr, dg, db, da) := dst
  let (sr, sg, sb, sa) := src
  let saq : ℚ := (sa : ℚ) / 255
  let daq : ℚ := (da : ℚ) / 255
  let outA : ℚ := saq + daq * (1 - saq)
  if outA = 0 then dst
  else
    let ch (s d : ℕ) : ℕ :=
      Int.toNat ⌊((s : ℚ) * saq + (d : ℚ) * daq * (1 - saq)) / outA⌋
    (ch sr dr, ch sg dg, ch sb db, Int.toNat ⌊outA * 255⌋)

/-- Modelled from the spec: `imageops::overlay(bottom, top, x, y)` (§4.5):
alpha-overlay `top` onto `bottom` at integer coordinates, which may be
negative or extend past the bounds; out-of-bounds source pixels are clipped,
and the destination keeps its dimensions. -/
def overlay (bottom top : Image) (ox oy : ℤ) : Image :=
  ⟨bottom.width, bottom.height, fun x y =>
    let sx : ℤ := (x : ℤ) - ox
    let sy : ℤ := (y : ℤ) - oy
    if 0 ≤ sx ∧ sx < (top.width : ℤ) ∧ 0 ≤ sy ∧ sy < (top.height : ℤ) ∧
       x < bottom.width ∧ y < bottom.height then
      blendOver (bottom.pix x y) (top.pix sx.toNat sy.toNat)
    else bottom.pix x y⟩

/-- A raqote `DrawTarget`: dimensions plus packed 32-bit ARGB pixels. -/
structure DrawTarget where
  width : ℕ
  height : ℕ
  pix : ℕ → ℕ → ℕ

/-- Function `merge` (lines 169-189 of `lib.rs`): unpack each ARGB word of the draw
target into an RGBA pixel by shifting and masking, build an image of the draw
target's dimensions, and overlay it on `img` at (0, 0). -/
def merge (img : Image) (dt : DrawTarget) : Image :=
  let font_img : Image :=
    ⟨dt.width, dt.height, fun x y =>
      let c := dt.pix x y % 2 ^ 32
      (c / 2 ^ 16 % 256, c / 2 ^ 8 % 256, c % 256, c / 2 ^ 24 % 256)⟩
  overlay img font_img 0 0

/-! ## Rotation (glyph transform) -/

/-- The body of `rotated_rect_size` (lines 137-167) over exact rationals,
taking the already-computed cosine and sine of the angle (the function's
first two lets).  The four corner points are rotated and the fold of lines
153-161, whose `INFINITY`/`NEG_INFINITY` initial values are identities for
`min`/`max`, computes the four-way minima and maxima. -/
def rotatedRectSizeQ (width height cos_a sin_a : ℚ) : ℚ × ℚ :=
  let hw := width / 2
  let hh := height / 2
  let rx (x y : ℚ) : ℚ := x * cos_a - y * sin_a
  let ry (x y : ℚ) : ℚ := x * sin_a + y * cos_a
  let min_x := min (min (min (rx (-hw) (-hh)) (rx hw (-hh))) (rx hw hh)) (rx (-hw) hh)
  let max_x := max (max (max (rx (-hw) (-hh)) (rx hw (-hh))) (rx hw hh)) (rx (-hw) hh)
  let min_y := min (min (min (ry (-hw) (-hh)) (ry hw (-hh))) (ry hw hh)) (ry (-hw) hh)
  let max_y := max (max (max (ry (-hw) (-hh)) (ry hw (-hh))) (ry hw hh)) (ry (-hw) hh)
  (max_x - min_x, max_y - min_y)

/-- Function `rotated_rect_size(width, height, angle)` (lines 137-167) with the `f32`
arithmetic modelled over the reals: cosine and sine of the angle are taken,
the four corners `(±hw, ±hh)` are rotated, and the extrema give the rotated
bounding box. -/
noncomputable def rotated_rect_size (width height angle : ℝ) : ℝ × ℝ :=
  let cos_a := Real.cos angle
  let sin_a := Real.sin angle
  let hw := width / 2
  let hh := height / 2
  let rx (x y : ℝ) : ℝ := x * cos_a - y * sin_a
  let ry (x y : ℝ) : ℝ := x * sin_a + y * cos_a
  let min_x := min (min (min (rx (-hw) (-hh)) (rx hw (-hh))) (rx hw hh)) (rx (-hw) hh)
  let max_x := max (max (max (rx (-hw) (-hh)) (rx hw (-hh))) (rx hw hh)) (rx (-hw) hh)
  let min_y := min (min (min (ry (-hw) (-hh)) (ry hw (-hh))) (ry hw hh)) (ry (-hw) hh)
  let max_y := max (max (max (ry (-hw) (-hh)) (ry hw (-hh))) (ry hw hh)) (ry (-hw) hh)
  (max_x - min_x, max_y - min_y)

/-- The source coordinates from which a destination pixel of the rotated
image samples: the destination point relative to the image center, rotated
back by the angle (whose cosine and sine are given), relative to the same
center.  Modelled from the spec (§4.3): the external `imageproc` rotation
collaborator maps each output pixel through the inverse rotation. -/
def rotateSrcCoords (w h : ℕ) (cosA sinA : ℚ) (x y : ℕ) : ℚ × ℚ :=
  let cx : ℚ := (w : ℚ) / 2
  let cy : ℚ := (h : ℚ) / 2
  let dx : ℚ := (x : ℚ) - cx
  let dy : ℚ := (y : ℚ) - cy
  (cosA * dx + sinA * dy + cx, -sinA * dx + cosA * dy + cy)

/-- Whether fractional source coordinates admit bilinear interpolation, i.e.
the four neighbouring source pixels exist. -/
def inSrcBounds (w h : ℕ) (p : ℚ × ℚ) : Bool :=
  0 ≤ p.1 ∧ p.1 ≤ (w : ℚ) - 1 ∧ 0 ≤ p.2 ∧ p.2 ≤ (h : ℚ) - 1

/-- Linear interpolation of one channel. -/
def mixChan (a b : ℕ) (t : ℚ) : ℕ :=
  Int.toNat ⌊(1 - t) * (a : ℚ) + t * (b : ℚ)⌋

/-- Linear interpolation of two pixels, channelwise. -/
def mixPix (p q : Pixel) (t : ℚ) : Pixel :=
  (mixChan p.1 q.1 t, mixChan p.2.1 q.2.1 t,
   mixChan p.2.2.1 q.2.2.1 t, mixChan p.2.2.2 q.2.2.2 t)

/-- Modelled from the spec (glossary): bilinear interpolation blends the four
nearest source pixels at fractional source coordinates. -/
def bilinearSample (img : Image) (sx sy : ℚ) : Pixel :=
  let x0 := Int.toNat ⌊sx⌋
  let y0 := Int.toNat ⌊sy⌋
  let fx := sx - (⌊sx⌋ : ℚ)
  let fy := sy - (⌊sy⌋ : ℚ)
  mixPix (mixPix (img.pix x0 y0) (img.pix (x0 + 1) y0) fx)
         (mixPix (img.pix x0 (y0 + 1)) (img.pix (x0 + 1) (y0 + 1)) fx) fy

/-- Modelled from the spec (§4.3 step 4): the external
`rotate_about_center(img, angle, Bilinear, default)` collaborator.  The
output has the input's dimensions; each destination pixel samples the source
at the inverse-rotated coordinates, with bilinear interpolation when those
coordinates fall inside the source and the `default` fill color otherwise. -/
def rotateAboutCenter (img : Image) (cosA sinA : ℚ) (dflt : Pixel) : Image :=
  ⟨img.width, img.height, fun x y =>
    let p := rotateSrcCoords img.width img.height cosA sinA x y
    if inSrcBounds img.width img.height p then bilinearSample img p.1 p.2
    else dflt⟩

/-! ## Fonts and glyph records -/

/-- A parsed font handle (the result of `Font::from_bytes`); its internals
belong to the external `fontdue` collaborator. -/
structure Font where
  fontdata : List ℕ

/-- The `fontdue` glyph metrics: pixel width, pixel height and advance width (an
`f32`, modelled as `ℚ`). -/
structure Metrics where
  width : ℕ
  height : ℕ
  advance_width : ℚ
deriving DecidableEq

/-! ## Noise strokes -/

/-- One noise stroke handed to the raqote `stroke` call: a straight line
between two points, or a cubic curve with two control points.  Color is an
RGB triple and alpha the `SolidSource` alpha. -/
inductive Stroke where
  | line (p1 p2 : ℕ × ℕ) (color : ℕ × ℕ × ℕ) (alpha : ℕ)
  | cubic (p1 ctrl1 ctrl2 p2 : ℕ × ℕ) (color : ℕ × ℕ × ℕ) (alpha : ℕ)
deriving DecidableEq

/-- Function `random_color` (lines 191-199): three `random_range(0..=255)` draws. -/
def random_color (rand : ℕ → ℕ) : ℕ × ℕ × ℕ :=
  (randRange 0 256 (rand 4), randRange 0 256 (rand 5), randRange 0 256 (rand 6))

/-- The stroke built by `draw_line` (lines 201-230): both endpoints uniform in
`[0, width) × [0, height)`, random color, alpha 255 (the `SolidSource` is
built with `Color::new(255, r, g, b)`). -/
def lineStroke (w h : ℕ) (rand : ℕ → ℕ) : Stroke :=
  let x1 := randRange 0 w (rand 0)
  let y1 := randRange 0 h (rand 1)
  let x2 := randRange 0 w (rand 2)
  let y2 := randRange 0 h (rand 3)
  .line (x1, y1) (x2, y2) (random_color rand) 255

/-- The stroke built by `draw_cubic_line` (lines 232-266): start `(0, y1)`,
end `(width, y2)`, a single repeated control point with x uniform in
`[width / 4, width / 4 * 3)` (u32 division), random color, alpha 128. -/
def cubicStroke (w h : ℕ) (rand : ℕ → ℕ) : Stroke :=
  let y1 := randRange 0 h (rand 0)
  let y2 := randRange 0 h (rand 1)
  let cx := randRange (w / 4) (w / 4 * 3) (rand 2)
  let cy := randRange 0 h (rand 3)
  .cubic (0, y1) (cx, cy) (cx, cy) (w, y2) (random_color rand) 128

/-! ## Environment: external collaborators and the random source -/

/-- The oracles `generate` interacts with: the random streams, the font file
read (`std::fs::read`), font parsing (`Font::from_bytes`), glyph
rasterization (`Font::rasterize`, taking the integer font size of line 42),
the rotation angle draw of line 82 represented by the cosine/sine pair the
trigonometry of the angle produces, the raqote stroke rasterizer (packed
ARGB pixels of the draw target after stroking), and the PNG encoder. -/
structure Env where
  pick : ℕ → ℕ
  readFont : Except String (List ℕ)
  parseFont : List ℕ → Except String Font
  rasterize : Font → Char → ℕ → Metrics × List ℕ
  angleCS : ℕ → ℚ × ℚ
  strokeRand : ℕ → ℕ → ℕ
  strokePix : Stroke → ℕ → ℕ → ℕ
  encodePng : Image → Except String (List ℕ)

/-- Line 42: `(self.width / self.length).min(self.height)` (u32 division). -/
def fontSize (cfg : Config) : ℕ := min (cfg.width / cfg.length) cfg.height

/-- Lines 59-62: rasterize every character of the challenge text at the
computed font size. -/
def rasterizedGlyphs (cfg : Config) (env : Env) (font : Font) :
    List (Metrics × List ℕ) :=
  (captchaText cfg.length env.pick).map (fun c => env.rasterize font c (fontSize cfg))

/-- Line 64: the summed advance widths of the rasterized glyphs. -/
def fontsWidth (rast : List (Metrics × List ℕ)) : ℚ :=
  (rast.map (fun p => p.1.advance_width)).sum

/-- Line 65: `spacing = (width - fonts_width) / (length + 1)`, signed `f32`
arithmetic modelled over `ℚ`; no clamping. -/
def spacingOf (cfg : Config) (rast : List (Metrics × List ℕ)) : ℚ :=
  ((cfg.width : ℚ) - fontsWidth rast) / ((cfg.length : ℚ) + 1)

/-! ## Glyph transform and layout (lines 69-107) -/

/-- Lines 70-80: the colorized glyph bitmap — foreground color with the
rasterized coverage as alpha, row-major. -/
def fontImgOf (color : ℕ × ℕ × ℕ) (m : Metrics) (bitmap : List ℕ) : Image :=
  ⟨m.width, m.height, fun x y =>
    (color.1, color.2.1, color.2.2, bitmap.getD (y * m.width + x) 0)⟩

/-- Lines 84-93: the expanded canvas of the truncated rotated bounding-box
size with the colorized glyph overlaid at the centering offset
`(rotated_dim as u32 - glyph_dim) / 2` (wrapping u32 subtraction, u32
division, then zero-extension to i64). -/
def expandedGlyph (color : ℕ × ℕ × ℕ) (m : Metrics) (bitmap : List ℕ)
    (cosA sinA : ℚ) : Image :=
  let rwh := rotatedRectSizeQ (m.width : ℚ) (m.height : ℚ) cosA sinA
  let rwu := f32ToU32 rwh.1
  let rhu := f32ToU32 rwh.2
  overlay (Image.new rwu rhu) (fontImgOf color m bitmap)
    ((u32WrapSub rwu m.width / 2 : ℕ) : ℤ) ((u32WrapSub rhu m.height / 2 : ℕ) : ℤ)

/-- Lines 95-100: rotate the expanded canvas about its center with bilinear
interpolation and an opaque white fill for out-of-source pixels. -/
def rotatedGlyph (color : ℕ × ℕ × ℕ) (m : Metrics) (bitmap : List ℕ)
    (cosA sinA : ℚ) : Image :=
  rotateAboutCenter (expandedGlyph color m bitmap cosA sinA) cosA sinA
    (255, 255, 255, 255)

/-- One iteration of the loop of lines 69-107 for the glyph at text index
`i` with the cursor at `x_offset`: the rotated bitmap together with
`px = (x_offset as i64) - (rotated_width as i64 - glyph_width as i64) / 2`
(line 102, i64 truncating division) and
`py = ((height as f32 - rotated_height_u32 as f32) / 2.0) as i64`
(line 103; the rotated image's height is the truncated bounding-box
height). -/
def glyphPlacement (cfg : Config) (env : Env) (g : Metrics × List ℕ)
    (i : ℕ) (x_offset : ℚ) : Image × ℤ × ℤ :=
  let cs := env.angleCS i
  let rwh := rotatedRectSizeQ (g.1.width : ℚ) (g.1.height : ℚ) cs.1 cs.2
  (rotatedGlyph cfg.color g.1 g.2 cs.1 cs.2,
   f32ToI64 x_offset - i64Div (f32ToI64 rwh.1 - (g.1.width : ℤ)) 2,
   f32ToI64 (((cfg.height : ℚ) - (f32ToU32 rwh.2 : ℚ)) / 2))

/-- The loop of lines 69-107 as a placement list: for each glyph (indexed so
the angle oracle can be consulted), the rotated bitmap and the `(px, py)` at
which it is overlaid on the canvas; the cursor `x_offset` advances by
`advance_width + spacing` after each glyph (line 106). -/
def placeGlyphs (cfg : Config) (env : Env) (spacing : ℚ) :
    List (Metrics × List ℕ) → ℕ → ℚ → List (Image × ℤ × ℤ)
  | [], _, _ => []
  | g :: rest, i, x_offset =>
    glyphPlacement cfg env g i x_offset ::
      placeGlyphs cfg env spacing rest (i + 1) (x_offset + g.1.advance_width + spacing)

/-- Lines 54-57: the canvas, created at the configured dimensions and filled
with the opaque background color. -/
def backgroundCanvas (cfg : Config) : Image :=
  ⟨cfg.width, cfg.height, fun _ _ =>
    (cfg.background_color.1, cfg.background_color.2.1, cfg.background_color.2.2, 255)⟩

/-- The canvas after the glyph loop: every placed glyph overlaid in order,
the cursor starting at `spacing` (line 67). -/
def canvasAfterGlyphs (cfg : Config) (env : Env)
    (rast : List (Metrics × List ℕ)) : Image :=
  (placeGlyphs cfg env (spacingOf cfg rast) rast 0 (spacingOf cfg rast)).foldl
    (fun im g => overlay im g.1 g.2.1 g.2.2) (backgroundCanvas cfg)

/-! ## Noise phase and final canvas (lines 111-117) -/

/-- The seven noise strokes in drawing order: five straight lines
(lines 111-113), then two cubic curves (lines 115-117). -/
def noiseStrokes (cfg : Config) (env : Env) : List Stroke :=
  (List.range 5).map (fun k => lineStroke cfg.width cfg.height (env.strokeRand k)) ++
  (List.range 2).map (fun k => cubicStroke cfg.width cfg.height (env.strokeRand (5 + k)))

/-- Drawing one stroke: rasterize it on a fresh `DrawTarget` of the canvas
dimensions (`DrawTarget::new(width, height)`) and `merge` it immediately. -/
def applyStroke (env : Env) (img : Image) (s : Stroke) : Image :=
  merge img ⟨img.width, img.height, env.strokePix s⟩

/-- The canvas handed to the encoder: glyph canvas, then each noise stroke
merged immediately after being drawn, in order. -/
def finalCanvas (cfg : Config) (env : Env)
    (rast : List (Metrics × List ℕ)) : Image :=
  (noiseStrokes cfg env).foldl (applyStroke env) (canvasAfterGlyphs cfg env rast)

/-! ## `Config::generate` (lines 30-123) -/

/-- The observable outcome of a call: a returned value, a returned error
(`Err`), or a panic. -/
inductive Outcome (ε α : Type) where
  | ok : α → Outcome ε α
  | error : ε → Outcome ε α
  | panic : Outcome ε α
deriving DecidableEq

/-- Method `Config::generate` (lines 30-123).  Control flow, in source order:
sample the text (lines 35-37); read the font file, `?` on failure (line 39);
parse it, `?` on failure (line 40); compute the font size, where
`self.width / self.length` panics on a zero length (line 42); rasterize and
composit the glyphs, where `RgbaImage::from_raw(..).unwrap()` (line 80)
panics when a rasterized bitmap holds fewer than `width * height` coverage
bytes; draw the noise strokes, where `random_range` panics on an empty range
(zero width or height for the line endpoints, `width / 4 * 3 ≤ width / 4`
for the cubic control point) and `try_into().unwrap()` panics when a canvas
dimension exceeds `i32::MAX`; and PNG-encode the canvas, where
`img.write_to(..).unwrap()` (line 120) panics on a serialization error.
Only a complete `(text, bytes)` pair is ever returned. -/
def generate (cfg : Config) (env : Env) : Outcome String (List Char × List ℕ) :=
  let text := captchaText cfg.length env.pick
  match env.readFont with
  | .error e => .error e
  | .ok fontData =>
    match env.parseFont fontData with
    | .error e => .error e
    | .ok font =>
      if cfg.length = 0 then .panic
      else
        let rast := rasterizedGlyphs cfg env font
        if rast.all (fun p => p.1.width * p.1.height ≤ p.2.length) then
          if 0 < cfg.width ∧ 0 < cfg.height ∧ cfg.width / 4 < cfg.width / 4 * 3 ∧
             cfg.width < 2 ^ 31 ∧ cfg.height < 2 ^ 31 then
            match env.encodePng (finalCanvas cfg env rast) with
            | .ok bytes => .ok (text, bytes)
            | .error _ => .panic
          else .panic
        else .panic

/-! ## Concrete fixtures used to instantiate the theorems -/

/-- The alphabet the code actually uses, built from its description: digits
2-9, uppercase letters excluding I and O, lowercase letters excluding l and
o. -/
def unambiguousAlphabet : List Char :=
  ((List.range 8).map fun i => Char.ofNat ('2'.toNat + i)) ++
  (((List.range 26).map fun i => Char.ofNat ('A'.toNat + i)).filter
    fun c => decide (c ≠ 'I' ∧ c ≠ 'O')) ++
  (((List.range 26).map fun i => Char.ofNat ('a'.toNat + i)).filter
    fun c => decide (c ≠ 'l' ∧ c ≠ 'o'))

/-- A fully successful environment: font present and parseable, every glyph
rasterized as a 3x3 bitmap with advance width 20, encoding succeeding. -/
def envPipelineOk : Env :=
  { pick := fun _ => 0
    readFont := .ok []
    parseFont := fun _ => .ok ⟨[]⟩
    rasterize := fun _ _ _ => (⟨3, 3, 20⟩, List.replicate 9 0)
    angleCS := fun _ => (1, 0)
    strokeRand := fun _ _ => 0
    strokePix := fun _ _ _ => 0
    encodePng := fun _ => .ok [1, 2, 3] }

/-- Error message of a failing PNG serialization. -/
def pngErrMsg : String :=
  "png serialization failed"

/-- Error message of a missing font file. -/
def fontErrMsg : String :=
  "Arial.ttf not found"

/-- An environment whose PNG serialization fails; everything else succeeds. -/
def envPngFails : Env :=
  { envPipelineOk with encodePng := fun _ => .error pngErrMsg }

/-- An environment in which reading the font file fails. -/
def envNoFontFile : Env :=
  { envPipelineOk with readFont := .error fontErrMsg }

/-- An environment whose rasterizer violates the bitmap-size contract: it
declares 3 x 3 glyph metrics but returns an empty coverage bitmap, so the
rgba buffer built from it is smaller than `from_raw` requires. -/
def envBadBitmap : Env :=
  { envPipelineOk with rasterize := fun _ _ _ => (⟨3, 3, 20⟩, []) }

/-- A configuration whose canvas is too narrow for its six glyphs: the
summed advance widths (6 x 20 = 120 under `envPipelineOk`) exceed the canvas
width 60, so the computed spacing is negative. -/
def narrowCfg : Config :=
  { length := 6, width := 60, height := 80,
    color := (0, 0, 0), background_color := (255, 255, 255) }

/-- The default configuration with a zero challenge length. -/
def zeroLenCfg : Config := { Config.default with length := 0 }

/-! ## Shared lemmas -/

theorem captchaText_length (len : ℕ) (pick : ℕ → ℕ) :
    (captchaText len pick).length = len := by simp [captchaText]

theorem captchaText_get (len : ℕ) (pick : ℕ → ℕ) (i : ℕ) (hi : i < len) :
    (captchaText len pick).get? i = some (sampleChar (pick i)) := by
  simp only [captchaText, List.get?_eq_getElem?, List.getElem?_map]
  rw [List.getElem?_range hi]
  rfl

theorem randRange_lt (lo hi v : ℕ) (h : lo < hi) : randRange lo hi v < hi := by
  unfold randRange
  have := Nat.mod_lt v (y := hi - lo) (by omega)
  omega

theorem randRange_le (lo hi v : ℕ) : lo ≤ randRange lo hi v := Nat.le_add_right _ _

theorem foldl_dims {α : Type} (f : Image → α → Image)
    (hf : ∀ im a, (f im a).width = im.width ∧ (f im a).height = im.height) :
    ∀ (l : List α) (img : Image),
      (l.foldl f img).width = img.width ∧ (l.foldl f img).height = img.height := by
  intro l
  induction l with
  | nil => intro img; exact ⟨rfl, rfl⟩
  | cons a rest ih =>
      intro img
      have h := hf img a
      simpa [List.foldl_cons, h.1, h.2] using ih (f img a)

theorem noiseStrokes_get_line (cfg : Config) (env : Env) (k : ℕ) (hk : k < 5) :
    (noiseStrokes cfg env).get? k =
      some (lineStroke cfg.width cfg.height (env.strokeRand k)) := by
  rw [noiseStrokes]
  simp only [List.get?_eq_getElem?]
  rw [List.getElem?_append_left (by simpa using hk)]
  simp only [List.getElem?_map]
  rw [List.getElem?_range hk]
  rfl

theorem noiseStrokes_get_cubic (cfg : Config) (env : Env) (k : ℕ)
    (hk5 : 5 ≤ k) (hk7 : k < 7) :
    (noiseStrokes cfg env).get? k =
      some (cubicStroke cfg.width cfg.height (env.strokeRand k)) := by
  rw [noiseStrokes]
  simp only [List.get?_eq_getElem?]
  rw [List.getElem?_append_right (by simp; omega)]
  simp only [List.length_map, List.length_range, List.getElem?_map]
  rw [List.getElem?_range (by omega)]
  simp only [Option.map_some']
  rw [show 5 + (k - 5) = k from by omega]

theorem placeGlyphs_length (cfg : Config) (env : Env) (sp : ℚ) :
    ∀ (l : List (Metrics × List ℕ)) (i0 : ℕ) (x0 : ℚ),
      (placeGlyphs cfg env sp l i0 x0).length = l.length := by
  intro l
  induction l with
  | nil => intro i0 x0; rfl
  | cons g rest ih => intro i0 x0; simp [placeGlyphs, ih]

theorem placeGlyphs_get (cfg : Config) (env : Env) (sp : ℚ) :
    ∀ (l : List (Metrics × List ℕ)) (i0 : ℕ) (x0 : ℚ) (i : ℕ),
      (placeGlyphs cfg env sp l i0 x0).get? i =
        (l.get? i).map (fun g => glyphPlacement cfg env g (i0 + i)
          (x0 + ((l.take i).map (fun p => p.1.advance_width + sp)).sum)) := by
  intro l
  induction l with
  | nil => intro i0 x0 i; simp [placeGlyphs]
  | cons g rest ih =>
      intro i0 x0 i
      cases i with
      | zero => simp [placeGlyphs]
      | succ j =>
          rw [placeGlyphs]
          show (placeGlyphs cfg env sp rest (i0 + 1) (x0 + g.1.advance_width + sp)).get? j = _
          rw [ih (i0 + 1) (x0 + g.1.advance_width + sp) j, List.get?_cons_succ]
          cases hr : rest.get? j with
          | none => simp [hr]
          | some a =>
              simp only [hr, Option.map_some', Option.some.injEq]
              rw [List.take_succ_cons, List.map_cons, List.sum_cons]
              congr 1
              · omega
              · ring

theorem expandedGlyph_width (color : ℕ × ℕ × ℕ) (m : Metrics) (bitmap : List ℕ)
    (cosA sinA : ℚ) :
    (expandedGlyph color m bitmap cosA sinA).width =
      f32ToU32 (rotatedRectSizeQ (m.width : ℚ) (m.height : ℚ) cosA sinA).1 := rfl

theorem expandedGlyph_height (color : ℕ × ℕ × ℕ) (m : Metrics) (bitmap : List ℕ)
    (cosA sinA : ℚ) :
    (expandedGlyph color m bitmap cosA sinA).height =
      f32ToU32 (rotatedRectSizeQ (m.width : ℚ) (m.height : ℚ) cosA sinA).2 := rfl

theorem min4_eq {a b c d m : ℝ} (hm : m = a ∨ m = b ∨ m = c ∨ m = d)
    (h1 : m ≤ a) (h2 : m ≤ b) (h3 : m ≤ c) (h4 : m ≤ d) :
    min (min (min a b) c) d = m := by
  apply le_antisymm
  · rcases hm with rfl | rfl | rfl | rfl
    · exact le_trans (min_le_left _ _) (le_trans (min_le_left _ _) (min_le_left _ _))
    · exact le_trans (min_le_left _ _) (le_trans (min_le_left _ _) (min_le_right _ _))
    · exact le_trans (min_le_left _ _) (min_le_right _ _)
    · exact min_le_right _ _
  · exact le_min (le_min (le_min h1 h2) h3) h4

theorem max4_eq {a b c d m : ℝ} (hm : m = a ∨ m = b ∨ m = c ∨ m = d)
    (h1 : a ≤ m) (h2 : b ≤ m) (h3 : c ≤ m) (h4 : d ≤ m) :
    max (max (max a b) c) d = m := by
  apply le_antisymm
  · exact max_le (max_le (max_le h1 h2) h3) h4
  · rcases hm with rfl | rfl | rfl | rfl
    · exact le_trans (le_max_left _ _) (le_trans (le_max_left _ _) (le_max_left _ _))
    · exact le_trans (le_max_right _ _) (le_trans (le_max_left _ _) (le_max_left _ _))
    · exact le_trans (le_max_right _ _) (le_max_left _ _)
    · exact le_max_right _ _

/-- For any angle with nonnegative cosine (in particular any angle in
`[-pi/8, pi/8]`) and nonnegative dimensions, the bounding box computed by
`rotated_rect_size` is `(w |cos| + h |sin|, w |sin| + h |cos|)`. -/
theorem rotated_rect_size_eq_of_cos_nonneg (w h θ : ℝ)
    (hw : 0 ≤ w) (hh : 0 ≤ h) (hc : 0 ≤ Real.cos θ) :
    rotated_rect_size w h θ =
      (w * Real.cos θ + h * |Real.sin θ|, w * |Real.sin θ| + h * Real.cos θ) := by
  unfold rotated_rect_size
  dsimp only
  have hw2 : 0 ≤ w / 2 := by linarith
  have hh2 : 0 ≤ h / 2 := by linarith
  have hwc : 0 ≤ w / 2 * Real.cos θ := mul_nonneg hw2 hc
  have hhc : 0 ≤ h / 2 * Real.cos θ := mul_nonneg hh2 hc
  rcases le_or_lt 0 (Real.sin θ) with hs | hs
  · have habs : |Real.sin θ| = Real.sin θ := abs_of_nonneg hs
    have hws : 0 ≤ w / 2 * Real.sin θ := mul_nonneg hw2 hs
    have hhs : 0 ≤ h / 2 * Real.sin θ := mul_nonneg hh2 hs
    rw [habs]
    rw [min4_eq (m := -(w/2) * Real.cos θ - h/2 * Real.sin θ)
          (by right; right; right; ring) (by linarith) (by linarith) (by linarith)
          (by linarith),
        max4_eq (m := w/2 * Real.cos θ + h/2 * Real.sin θ)
          (by right; left; ring) (by linarith) (by linarith) (by linarith) (by linarith),
        min4_eq (m := -(w/2) * Real.sin θ - h/2 * Real.cos θ)
          (by left; ring) (by linarith) (by linarith) (by linarith) (by linarith),
        max4_eq (m := w/2 * Real.sin θ + h/2 * Real.cos θ)
          (by right; right; left; ring) (by linarith) (by linarith) (by linarith)
          (by linarith)]
    rw [Prod.mk.injEq]
    constructor <;> ring
  · have habs : |Real.sin θ| = -Real.sin θ := abs_of_neg hs
    have hws : w / 2 * Real.sin θ ≤ 0 := by nlinarith
    have hhs : h / 2 * Real.sin θ ≤ 0 := by nlinarith
    rw [habs]
    rw [min4_eq (m := -(w/2) * Real.cos θ + h/2 * Real.sin θ)
          (by left; ring) (by linarith) (by linarith) (by linarith) (by linarith),
        max4_eq (m := w/2 * Real.cos θ - h/2 * Real.sin θ)
          (by right; right; left; ring) (by linarith) (by linarith) (by linarith)
          (by linarith),
        min4_eq (m := w/2 * Real.sin θ - h/2 * Real.cos θ)
          (by right; left; ring) (by linarith) (by linarith) (by linarith) (by linarith),
        max4_eq (m := -(w/2) * Real.sin θ + h/2 * Real.cos θ)
          (by right; right; right; ring) (by linarith) (by linarith) (by linarith)
          (by linarith)]
    rw [Prod.mk.injEq]
    constructor <;> ring

/-- The half-angle argument: for `t` in `[0, pi/8]` and nonnegative `a`, `b`
with `a tan(pi/16) ≤ b`, the rotated extent `a cos t + b sin t` is at least
`a`. -/
theorem cos_sin_lower (a b t : ℝ) (ha : 0 ≤ a) (hb : 0 ≤ b)
    (ht0 : 0 ≤ t) (ht : t ≤ Real.pi / 8)
    (hab : a * Real.tan (Real.pi / 16) ≤ b) :
    a ≤ a * Real.cos t + b * Real.sin t := by
  have hpi := Real.pi_pos
  have hu0 : 0 ≤ t / 2 := by linarith
  have hu16 : t / 2 ≤ Real.pi / 16 := by linarith
  have hsin_u : 0 ≤ Real.sin (t / 2) :=
    Real.sin_nonneg_of_nonneg_of_le_pi hu0 (by linarith)
  have hcos16pos : 0 < Real.cos (Real.pi / 16) :=
    Real.cos_pos_of_mem_Ioo ⟨by linarith, by linarith⟩
  have hsin_mono : Real.sin (t / 2) ≤ Real.sin (Real.pi / 16) :=
    Real.sin_le_sin_of_le_of_le_pi_div_two (by linarith) (by linarith) hu16
  have hcos_mono : Real.cos (Real.pi / 16) ≤ Real.cos (t / 2) :=
    Real.cos_le_cos_of_nonneg_of_le_pi hu0 (by linarith) hu16
  have key : a * Real.sin (t / 2) ≤ b * Real.cos (t / 2) := by
    have h1 : a * Real.sin (t / 2) ≤ a * Real.sin (Real.pi / 16) :=
      mul_le_mul_of_nonneg_left hsin_mono ha
    have h2 : a * Real.sin (Real.pi / 16) =
        a * Real.tan (Real.pi / 16) * Real.cos (Real.pi / 16) := by
      rw [Real.tan_eq_sin_div_cos]
      field_simp
    have h3 : a * Real.tan (Real.pi / 16) * Real.cos (Real.pi / 16) ≤
        b * Real.cos (Real.pi / 16) :=
      mul_le_mul_of_nonneg_right hab (le_of_lt hcos16pos)
    have h4 : b * Real.cos (Real.pi / 16) ≤ b * Real.cos (t / 2) :=
      mul_le_mul_of_nonneg_left hcos_mono hb
    linarith
  have hcos_t : Real.cos t = 1 - 2 * Real.sin (t / 2) ^ 2 := by
    have h := Real.cos_two_mul (t / 2)
    have hs := Real.sin_sq_add_cos_sq (t / 2)
    rw [show 2 * (t / 2) = t from by ring] at h
    nlinarith
  have hsin_t : Real.sin t = 2 * Real.sin (t / 2) * Real.cos (t / 2) := by
    have h := Real.sin_two_mul (t / 2)
    rw [show 2 * (t / 2) = t from by ring] at h
    exact h
  rw [hcos_t, hsin_t]
  nlinarith [mul_le_mul_of_nonneg_left key
    (mul_nonneg (by norm_num : (0:ℝ) ≤ 2) hsin_u)]

theorem abs_sin_small (θ : ℝ) (hθ : |θ| ≤ Real.pi / 8) :
    |Real.sin θ| = Real.sin |θ| := by
  have hpi := Real.pi_pos
  obtain ⟨hl, hr⟩ := abs_le.mp hθ
  rcases le_or_lt 0 θ with h0 | h0
  · rw [abs_of_nonneg h0,
      abs_of_nonneg (Real.sin_nonneg_of_nonneg_of_le_pi h0 (by linarith))]
  · rw [abs_of_neg h0, Real.sin_neg,
      abs_of_nonpos (Real.sin_nonpos_of_nonnpos_of_neg_pi_le (le_of_lt h0) (by linarith))]

/-! ## Claim C1 -/

/-- C1, counterexample: the alphabet the sampler draws from has 56 symbols,
not 58, and differs from the alphabet the claim describes (digits 2-9,
uppercase minus I/O, lowercase minus l): that description yields 57 symbols
and contains lowercase o, which the code's charset excludes. -/
theorem C1_counterexample_alphabet_mismatch :
    charset.length = 56 ∧ specDescribedAlphabet.length = 57 ∧
    'o' ∈ specDescribedAlphabet ∧ 'o' ∉ charset := by decide

/-- C1, amended: for every valid configuration the challenge text has length
exactly the configured length, every character is the uniform-index draw
`pick i` into the duplicate-free charset, and that charset is exactly the
56-symbol alphabet of digits 2-9, uppercase letters excluding I and O, and
lowercase letters excluding l and o. -/
theorem C1_amended_text_uniform_over_alphabet56 (cfg : Config) (pick : ℕ → ℕ)
    (hlen : 0 < cfg.length) (hw : 0 < cfg.width) (hh : 0 < cfg.height) :
    (captchaText cfg.length pick).length = cfg.length ∧
    (∀ c ∈ captchaText cfg.length pick, c ∈ charset) ∧
    (∀ i, i < cfg.length →
      (captchaText cfg.length pick).get? i = some (sampleChar (pick i))) ∧
    charset.Nodup ∧ charset.length = 56 ∧ charset = unambiguousAlphabet := by
  refine ⟨captchaText_length _ _, ?_, fun i hi => captchaText_get _ _ i hi,
    by decide, by decide, by decide⟩
  intro c hc
  simp only [captchaText, List.mem_map] at hc
  obtain ⟨i, -, rfl⟩ := hc
  exact List.get_mem _ _ _

/-- C1, witness at the default configuration and an all-zero index stream. -/
theorem C1_amended_witness :
    (captchaText Config.default.length envPipelineOk.pick).length =
      Config.default.length ∧ charset.length = 56 :=
  ⟨(C1_amended_text_uniform_over_alphabet56 Config.default envPipelineOk.pick
      (by decide) (by decide) (by decide)).1,
   (C1_amended_text_uniform_over_alphabet56 Config.default envPipelineOk.pick
      (by decide) (by decide) (by decide)).2.2.2.2.1⟩

/-! ## Claim C2 -/

/-- C2, counterexample: in an environment where PNG serialization fails, the
`img.write_to(..).unwrap()` of line 120 panics, so the failure is not
surfaced to the caller as an error result. -/
theorem C2_counterexample_serialization_failure_panics :
    generate Config.default envPngFails = Outcome.panic := rfl

/-- C2, amended: font-resource failures (file read, parse) are surfaced as
`Err` results; `generate` returns `Ok` only with a complete pair (the full
challenge text and the encoder's output for the final canvas); but a
rasterized-bitmap size mismatch (a bitmap smaller than its declared
`width * height`, failing the `from_raw` of line 80) makes `generate` panic,
and so does a serialization failure (the `unwrap` of line 120) — neither is
returned as an error. -/
theorem C2_amended_error_surfacing (cfg : Config) (env : Env) :
    (∀ e, env.readFont = .error e → generate cfg env = .error e) ∧
    (∀ fd e, env.readFont = .ok fd → env.parseFont fd = .error e →
      generate cfg env = .error e) ∧
    (∀ t b, generate cfg env = .ok (t, b) →
      t = captchaText cfg.length env.pick ∧ t.length = cfg.length ∧
      ∃ fd font, env.readFont = .ok fd ∧ env.parseFont fd = .ok font ∧
        env.encodePng (finalCanvas cfg env (rasterizedGlyphs cfg env font)) = .ok b) ∧
    (∀ fd font, env.readFont = .ok fd → env.parseFont fd = .ok font →
      cfg.length ≠ 0 →
      (∃ p ∈ rasterizedGlyphs cfg env font, p.2.length < p.1.width * p.1.height) →
      generate cfg env = .panic) ∧
    (∀ fd font e, env.readFont = .ok fd → env.parseFont fd = .ok font →
      cfg.length ≠ 0 →
      (∀ p ∈ rasterizedGlyphs cfg env font, p.1.width * p.1.height ≤ p.2.length) →
      0 < cfg.width → 0 < cfg.height → cfg.width / 4 < cfg.width / 4 * 3 →
      cfg.width < 2 ^ 31 → cfg.height < 2 ^ 31 →
      env.encodePng (finalCanvas cfg env (rasterizedGlyphs cfg env font)) = .error e →
      generate cfg env = .panic) := by
  refine ⟨?_, ?_, ?_, ?_, ?_⟩
  · intro e he
    simp [generate, he]
  · intro fd e h1 h2
    simp [generate, h1, h2]
  · intro t b hok
    cases hrf : env.readFont with
    | error e => simp [generate, hrf] at hok
    | ok fd =>
      cases hpf : env.parseFont fd with
      | error e => simp [generate, hrf, hpf] at hok
      | ok font =>
        by_cases hlen : cfg.length = 0
        · simp [generate, hrf, hpf, hlen] at hok
        · by_cases hbm : (rasterizedGlyphs cfg env font).all
              (fun p => p.1.width * p.1.height ≤ p.2.length) = true
          · by_cases hg : 0 < cfg.width ∧ 0 < cfg.height ∧
                cfg.width / 4 < cfg.width / 4 * 3 ∧
                cfg.width < 2 ^ 31 ∧ cfg.height < 2 ^ 31
            · obtain ⟨hg1, hg2, hg3, hg4, hg5⟩ := hg
              cases henc : env.encodePng (finalCanvas cfg env (rasterizedGlyphs cfg env font)) with
              | ok bytes =>
                  have hgen : generate cfg env =
                      .ok (captchaText cfg.length env.pick, bytes) := by
                    simp [generate, hrf, hpf, hlen, hbm, hg1, hg2, hg3, henc]
                    omega
                  rw [hgen] at hok
                  injection hok with hpair
                  injection hpair with ht hb
                  subst ht
                  subst hb
                  exact ⟨rfl, captchaText_length _ _, ⟨fd, ⟨font, rfl, hpf, henc⟩⟩⟩
              | error e =>
                  have hgen : generate cfg env = .panic := by
                    simp [generate, hrf, hpf, hlen, hbm, hg1, hg2, hg3, henc]
                  rw [hgen] at hok
                  cases hok
            · have hgen : generate cfg env = .panic := by
                simp only [generate, hrf, hpf]
                rw [if_neg hlen, if_pos hbm, if_neg hg]
              rw [hgen] at hok
              cases hok
          · have hbm2 : (rasterizedGlyphs cfg env font).all
                (fun p => p.1.width * p.1.height ≤ p.2.length) = false := by
              simpa using hbm
            have hgen : generate cfg env = .panic := by
              simp [generate, hrf, hpf, hlen, hbm2]
            rw [hgen] at hok
            cases hok
  · intro fd font h1 h2 hlen hbad
    have hall : (rasterizedGlyphs cfg env font).all
        (fun p => p.1.width * p.1.height ≤ p.2.length) = false := by
      obtain ⟨p, hp, hlt⟩ := hbad
      rw [List.all_eq_false]
      exact ⟨p, hp, by simpa using Nat.not_le.mpr hlt⟩
    simp [generate, h1, h2, hlen, hall]
  · intro fd font e h1 h2 hlen hbm hw hh hq hwlt hhlt henc
    have hbm2 : (rasterizedGlyphs cfg env font).all
        (fun p => p.1.width * p.1.height ≤ p.2.length) = true := by
      rw [List.all_eq_true]
      intro p hp
      exact decide_eq_true (hbm p hp)
    simp [generate, h1, h2, hlen, hbm2, henc, hw, hh, hq, hwlt, hhlt]

/-- C2, witness: a missing font file is surfaced as an error result, and a
rasterizer returning a too-small bitmap makes `generate` panic. -/
theorem C2_amended_witness :
    generate Config.default envNoFontFile = .error fontErrMsg ∧
    generate Config.default envBadBitmap = .panic :=
  ⟨(C2_amended_error_surfacing Config.default envNoFontFile).1 fontErrMsg rfl,
   (C2_amended_error_surfacing Config.default envBadBitmap).2.2.2.1 [] ⟨[]⟩
     rfl rfl (by decide) (by decide)⟩

/-! ## Claim C3 -/

/-- C3: whenever the summed advance widths exceed the canvas width (under a
working font, well-formed rasterizer, succeeding encoder and in-range canvas
dimensions), `generate` still completes with an `Ok (text, bytes)` result and
the computed spacing is negative — it is neither clamped nor treated as a
failure. -/
theorem C3_negative_spacing_still_completes (cfg : Config) (env : Env)
    (fd : List ℕ) (font : Font) (bytes : List ℕ)
    (hread : env.readFont = .ok fd) (hparse : env.parseFont fd = .ok font)
    (hlen : cfg.length ≠ 0)
    (hrast : ∀ c s, (env.rasterize font c s).1.width * (env.rasterize font c s).1.height ≤
      (env.rasterize font c s).2.length)
    (hw4 : 4 ≤ cfg.width) (hh : 0 < cfg.height)
    (hwlt : cfg.width < 2 ^ 31) (hhlt : cfg.height < 2 ^ 31)
    (henc : env.encodePng (finalCanvas cfg env (rasterizedGlyphs cfg env font)) = .ok bytes)
    (hover : (cfg.width : ℚ) < fontsWidth (rasterizedGlyphs cfg env font)) :
    generate cfg env = .ok (captchaText cfg.length env.pick, bytes) ∧
    spacingOf cfg (rasterizedGlyphs cfg env font) < 0 := by
  have hw0 : 0 < cfg.width := by omega
  have hq : cfg.width / 4 < cfg.width / 4 * 3 := by
    have : 1 ≤ cfg.width / 4 := by omega
    omega
  have hbm : (rasterizedGlyphs cfg env font).all
      (fun p => p.1.width * p.1.height ≤ p.2.length) = true := by
    rw [List.all_eq_true]
    intro p hp
    simp only [rasterizedGlyphs, List.mem_map] at hp
    obtain ⟨c, -, rfl⟩ := hp
    exact decide_eq_true (hrast c (fontSize cfg))
  constructor
  · simp [generate, hread, hparse, hlen, hbm, hw0, hh, hq, henc]
    omega
  · apply div_neg_of_neg_of_pos
    · linarith
    · positivity

/-- C3, witness: length 6 on a 60-pixel-wide canvas with 20-pixel advances
(total 120 > 60) completes with a result and a negative spacing. -/
theorem C3_witness :
    generate narrowCfg envPipelineOk =
      .ok (captchaText narrowCfg.length envPipelineOk.pick, [1, 2, 3]) ∧
    spacingOf narrowCfg (rasterizedGlyphs narrowCfg envPipelineOk ⟨[]⟩) < 0 :=
  C3_negative_spacing_still_completes narrowCfg envPipelineOk [] ⟨[]⟩ [1, 2, 3]
    rfl rfl (by decide) (fun c s => by simp [envPipelineOk]) (by decide) (by decide)
    (by decide) (by decide) rfl
    (by simp [fontsWidth, rasterizedGlyphs, captchaText, narrowCfg, envPipelineOk,
          List.range_succ]
        norm_num)

/-! ## Claim C4 -/

/-- C4: the canvas is created at exactly the configured dimensions, every
mutation of it — glyph compositing (`overlay`) and noise-stroke merging
(`merge`) — preserves the dimensions of the image it mutates, and the canvas
handed to the (lossless) encoder therefore has exactly the configured
dimensions for every configuration, environment (text, rotation angles,
strokes) and rasterization. -/
theorem C4_canvas_dimensions_invariant (cfg : Config) (env : Env)
    (rast : List (Metrics × List ℕ)) :
    (backgroundCanvas cfg).width = cfg.width ∧
    (backgroundCanvas cfg).height = cfg.height ∧
    (∀ bottom top ox oy, (overlay bottom top ox oy).width = bottom.width ∧
      (overlay bottom top ox oy).height = bottom.height) ∧
    (∀ img dt, (merge img dt).width = img.width ∧
      (merge img dt).height = img.height) ∧
    (finalCanvas cfg env rast).width = cfg.width ∧
    (finalCanvas cfg env rast).height = cfg.height := by
  refine ⟨rfl, rfl, fun _ _ _ _ => ⟨rfl, rfl⟩, fun _ _ => ⟨rfl, rfl⟩, ?_, ?_⟩
  all_goals
    have h1 := foldl_dims (applyStroke env) (fun im s => ⟨rfl, rfl⟩)
        (noiseStrokes cfg env) (canvasAfterGlyphs cfg env rast)
    have h2 := foldl_dims (fun im (g : Image × ℤ × ℤ) => overlay im g.1 g.2.1 g.2.2)
        (fun im g => ⟨rfl, rfl⟩)
        (placeGlyphs cfg env (spacingOf cfg rast) rast 0 (spacingOf cfg rast))
        (backgroundCanvas cfg)
    unfold finalCanvas
  · rw [h1.1]; exact h2.1
  · rw [h1.2]; exact h2.2

/-! ## Claim C5 -/

/-- C5: at angle 0 the rotated bounding box equals the original size exactly,
for all nonnegative dimensions (`f32` arithmetic modelled exactly: at angle 0
the cosine is exactly 1 and the sine exactly 0, and halving then doubling a
width is exact). -/
theorem C5_rotated_rect_size_angle_zero (w h : ℝ) (hw : 0 ≤ w) (hh : 0 ≤ h) :
    rotated_rect_size w h 0 = (w, h) := by
  unfold rotated_rect_size
  simp only [Real.cos_zero, Real.sin_zero, mul_one, mul_zero, sub_zero, zero_add,
    add_zero]
  have hw2 : 0 ≤ w / 2 := by linarith
  have hh2 : 0 ≤ h / 2 := by linarith
  rw [min4_eq (m := -(w/2)) (by tauto) (by linarith) (by linarith) (by linarith)
        (by linarith),
      max4_eq (m := w/2) (by tauto) (by linarith) (by linarith) (by linarith)
        (by linarith),
      min4_eq (m := -(h/2)) (by tauto) (by linarith) (by linarith) (by linarith)
        (by linarith),
      max4_eq (m := h/2) (by tauto) (by linarith) (by linarith) (by linarith)
        (by linarith)]
  rw [Prod.mk.injEq]
  constructor <;> ring

/-- C5, witness at a 3 x 4 rectangle. -/
theorem C5_witness : rotated_rect_size 3 4 0 = (3, 4) :=
  C5_rotated_rect_size_angle_zero 3 4 (by norm_num) (by norm_num)

/-! ## Claim C6 -/

/-- C6: during glyph rotation, every destination pixel whose inverse-rotation
source coordinates fall outside the expanded source bitmap receives the fill
color `generate` passes — opaque white `(255, 255, 255, 255)`, whose alpha is
255, not a transparent value — for every glyph bitmap, color and rotation
angle (given by its cosine/sine pair). -/
theorem C6_rotation_fill_opaque_white (color : ℕ × ℕ × ℕ) (m : Metrics)
    (bitmap : List ℕ) (cosA sinA : ℚ) (x y : ℕ)
    (hout : inSrcBounds (expandedGlyph color m bitmap cosA sinA).width
        (expandedGlyph color m bitmap cosA sinA).height
        (rotateSrcCoords (expandedGlyph color m bitmap cosA sinA).width
          (expandedGlyph color m bitmap cosA sinA).height cosA sinA x y) = false) :
    (rotatedGlyph color m bitmap cosA sinA).pix x y = (255, 255, 255, 255) ∧
    ((rotatedGlyph color m bitmap cosA sinA).pix x y).2.2.2 ≠ 0 := by
  have hpix : (rotatedGlyph color m bitmap cosA sinA).pix x y = (255, 255, 255, 255) := by
    show (if inSrcBounds _ _ _ = true then _ else (255, 255, 255, 255)) = _
    rw [hout]
    simp
  exact ⟨hpix, by rw [hpix]; decide⟩

/-- C6, witness: a 1 x 1 glyph under the identity angle, sampled at the
out-of-bounds destination pixel (5, 0), is filled with opaque white. -/
theorem C6_witness :
    (rotatedGlyph (0, 0, 0) ⟨1, 1, 1⟩ [0] 1 0).pix 5 0 = (255, 255, 255, 255) ∧
    ((rotatedGlyph (0, 0, 0) ⟨1, 1, 1⟩ [0] 1 0).pix 5 0).2.2.2 ≠ 0 := by
  apply C6_rotation_fill_opaque_white
  have h1 : rotatedRectSizeQ (((⟨1, 1, 1⟩ : Metrics).width : ℚ))
      (((⟨1, 1, 1⟩ : Metrics).height : ℚ)) 1 0 = (1, 1) := by
    norm_num [rotatedRectSizeQ]
  have h2 : f32ToU32 1 = 1 := by norm_num [f32ToU32]
  rw [expandedGlyph_width, expandedGlyph_height, h1, h2]
  have hco : rotateSrcCoords 1 1 1 0 5 0 = (5, 0) := by
    norm_num [rotateSrcCoords]
  rw [hco]
  rw [show inSrcBounds 1 1 (5, 0) =
    decide ((0:ℚ) ≤ 5 ∧ (5:ℚ) ≤ 1 - 1 ∧ (0:ℚ) ≤ 0 ∧ (0:ℚ) ≤ 1 - 1) from rfl]
  rw [decide_eq_false_iff_not]
  intro hcontra
  norm_num at hcontra

/-! ## Claim C7 -/

/-- C7: the layout computes `spacing = (width - total_advance) / (length + 1)`
in (exactly modelled) floating point; the `i`-th placement uses the cursor
value `spacing + sum of (advance_j + spacing) for j < i` (so the cursor
starts at `spacing` and advances by exactly `advance + spacing` after each
placement), horizontal position
`px = (x as i64) - (rotated_width as i64 - original_width) / 2` and vertical
position `py = ((height - rotated_height) / 2) as i64`; and the glyphs are
composited onto the canvas left to right in challenge-text order. -/
theorem C7_layout_formulas (cfg : Config) (env : Env)
    (rast : List (Metrics × List ℕ)) :
    spacingOf cfg rast = ((cfg.width : ℚ) - fontsWidth rast) / ((cfg.length : ℚ) + 1) ∧
    (placeGlyphs cfg env (spacingOf cfg rast) rast 0 (spacingOf cfg rast)).length
      = rast.length ∧
    (∀ i, (placeGlyphs cfg env (spacingOf cfg rast) rast 0 (spacingOf cfg rast)).get? i =
      (rast.get? i).map (fun g =>
        (rotatedGlyph cfg.color g.1 g.2 (env.angleCS i).1 (env.angleCS i).2,
         f32ToI64 (spacingOf cfg rast +
             ((rast.take i).map (fun p => p.1.advance_width + spacingOf cfg rast)).sum) -
           i64Div (f32ToI64 (rotatedRectSizeQ (g.1.width : ℚ) (g.1.height : ℚ)
               (env.angleCS i).1 (env.angleCS i).2).1 - (g.1.width : ℤ)) 2,
         f32ToI64 (((cfg.height : ℚ) -
           (f32ToU32 (rotatedRectSizeQ (g.1.width : ℚ) (g.1.height : ℚ)
               (env.angleCS i).1 (env.angleCS i).2).2 : ℚ)) / 2)))) ∧
    canvasAfterGlyphs cfg env rast =
      (placeGlyphs cfg env (spacingOf cfg rast) rast 0 (spacingOf cfg rast)).foldl
        (fun im g => overlay im g.1 g.2.1 g.2.2) (backgroundCanvas cfg) := by
  refine ⟨rfl, placeGlyphs_length cfg env _ rast 0 _, ?_, rfl⟩
  intro i
  rw [placeGlyphs_get]
  cases hr : rast.get? i with
  | none => simp
  | some g => simp [glyphPlacement]

/-! ## Claim C8 -/

/-- C8: the noise phase draws exactly 5 straight-line strokes followed by
exactly 2 cubic strokes, each merged into the canvas immediately after being
drawn (the final canvas is the left fold of `merge` over the stroke list in
drawing order); every line stroke has alpha 255 with both endpoints inside
the canvas and a random RGB color; every cubic stroke has alpha 128, starts
at x = 0, ends at x = canvas width, and uses a single repeated control point
whose x lies in `[width / 4, width / 4 * 3)` — the middle half of the canvas
width under u32 division. -/
theorem C8_noise_strokes_shape (cfg : Config) (env : Env)
    (hw : 4 ≤ cfg.width) (hh : 0 < cfg.height) :
    (noiseStrokes cfg env).length = 7 ∧
    (∀ k, k < 5 → ∃ p1 p2 c,
      (noiseStrokes cfg env).get? k = some (.line p1 p2 c 255) ∧
      p1.1 < cfg.width ∧ p1.2 < cfg.height ∧ p2.1 < cfg.width ∧ p2.2 < cfg.height ∧
      c.1 < 256 ∧ c.2.1 < 256 ∧ c.2.2 < 256) ∧
    (∀ k, 5 ≤ k → k < 7 → ∃ y1 ctrl y2 c,
      (noiseStrokes cfg env).get? k =
        some (.cubic (0, y1) ctrl ctrl (cfg.width, y2) c 128) ∧
      y1 < cfg.height ∧ y2 < cfg.height ∧
      cfg.width / 4 ≤ ctrl.1 ∧ ctrl.1 < cfg.width / 4 * 3 ∧ ctrl.2 < cfg.height ∧
      c.1 < 256 ∧ c.2.1 < 256 ∧ c.2.2 < 256) ∧
    (∀ rast, finalCanvas cfg env rast =
      (noiseStrokes cfg env).foldl (applyStroke env) (canvasAfterGlyphs cfg env rast)) := by
  have hw0 : 0 < cfg.width := by omega
  have hq : cfg.width / 4 < cfg.width / 4 * 3 := by
    have : 1 ≤ cfg.width / 4 := by omega
    omega
  refine ⟨by simp [noiseStrokes], ?_, ?_, fun _ => rfl⟩
  · intro k hk
    exact ⟨(randRange 0 cfg.width (env.strokeRand k 0),
            randRange 0 cfg.height (env.strokeRand k 1)),
           (randRange 0 cfg.width (env.strokeRand k 2),
            randRange 0 cfg.height (env.strokeRand k 3)),
           random_color (env.strokeRand k),
           noiseStrokes_get_line cfg env k hk,
           randRange_lt _ _ _ hw0, randRange_lt _ _ _ hh,
           randRange_lt _ _ _ hw0, randRange_lt _ _ _ hh,
           randRange_lt _ _ _ (by norm_num), randRange_lt _ _ _ (by norm_num),
           randRange_lt _ _ _ (by norm_num)⟩
  · intro k hk5 hk7
    exact ⟨randRange 0 cfg.height (env.strokeRand k 0),
           (randRange (cfg.width / 4) (cfg.width / 4 * 3) (env.strokeRand k 2),
            randRange 0 cfg.height (env.strokeRand k 3)),
           randRange 0 cfg.height (env.strokeRand k 1),
           random_color (env.strokeRand k),
           noiseStrokes_get_cubic cfg env k hk5 hk7,
           randRange_lt _ _ _ hh, randRange_lt _ _ _ hh,
           randRange_le _ _ _, randRange_lt _ _ _ hq, randRange_lt _ _ _ hh,
           randRange_lt _ _ _ (by norm_num), randRange_lt _ _ _ (by norm_num),
           randRange_lt _ _ _ (by norm_num)⟩

/-- C8, witness at the default 240 x 80 configuration: seven strokes, and the
final canvas is the immediate-merge fold over them. -/
theorem C8_witness :
    (noiseStrokes Config.default envPipelineOk).length = 7 ∧
    finalCanvas Config.default envPipelineOk [] =
      (noiseStrokes Config.default envPipelineOk).foldl (applyStroke envPipelineOk)
        (canvasAfterGlyphs Config.default envPipelineOk []) :=
  ⟨(C8_noise_strokes_shape Config.default envPipelineOk (by decide) (by decide)).1,
   (C8_noise_strokes_shape Config.default envPipelineOk (by decide) (by decide)).2.2.2 []⟩

/-! ## Claim C9 -/

/-- C9: `generate` is total only under the precondition of a positive length:
with a working font resource and a zero configured length, the font-size
computation `width / length` is a division by zero and the call panics
instead of returning an error result. -/
theorem C9_zero_length_division_panics (cfg : Config) (env : Env)
    (fd : List ℕ) (font : Font)
    (hread : env.readFont = .ok fd) (hparse : env.parseFont fd = .ok font)
    (hlen : cfg.length = 0) :
    generate cfg env = .panic := by
  simp [generate, hread, hparse, hlen]

/-- C9, witness: the default configuration with length 0 panics. -/
theorem C9_witness : generate zeroLenCfg envPipelineOk = .panic :=
  C9_zero_length_division_panics zeroLenCfg envPipelineOk [] ⟨[]⟩ rfl rfl rfl

/-! ## Claim C10 -/

/-- C10, counterexample: a 10 x 1 glyph bitmap rotated by pi/8 (an angle the
rotation draw can produce) has a truncated rotated width strictly below the
original width — `10 cos(pi/8) + sin(pi/8) < 10` — so
`rotated_width as u32 - glyph_width` underflows. -/
theorem C10_counterexample_underflow_wide_flat_glyph :
    ⌊(rotated_rect_size 10 1 (Real.pi / 8)).1⌋ < 10 := by
  have hpi := Real.pi_pos
  have hc : (0:ℝ) ≤ Real.cos (Real.pi / 8) :=
    Real.cos_nonneg_of_mem_Icc ⟨by linarith, by linarith⟩
  have hsn : (0:ℝ) ≤ Real.sin (Real.pi / 8) :=
    Real.sin_nonneg_of_nonneg_of_le_pi (by linarith) (by linarith)
  rw [rotated_rect_size_eq_of_cos_nonneg 10 1 (Real.pi / 8) (by norm_num)
    (by norm_num) hc]
  have habs : |Real.sin (Real.pi / 8)| = Real.sin (Real.pi / 8) := abs_of_nonneg hsn
  have h2lt : Real.sqrt 2 < 1.41422 := (Real.sqrt_lt' (by norm_num)).mpr (by norm_num)
  have h2gt : (1.41421 : ℝ) < Real.sqrt 2 := (Real.lt_sqrt (by norm_num)).mpr (by norm_num)
  have hc8 : Real.sqrt (2 + Real.sqrt 2) < 1.8478 :=
    (Real.sqrt_lt' (by norm_num)).mpr (by nlinarith)
  have hs8 : Real.sqrt (2 - Real.sqrt 2) < 0.7654 :=
    (Real.sqrt_lt' (by norm_num)).mpr (by nlinarith)
  have hval : (10:ℝ) * Real.cos (Real.pi / 8) + 1 * |Real.sin (Real.pi / 8)| < 10 := by
    rw [habs, Real.cos_pi_div_eight, Real.sin_pi_div_eight]
    nlinarith
  exact Int.floor_lt.mpr (by push_cast; linarith)

/-- C10, amended: for glyph dimensions at least 1 and any angle in
`[-pi/8, pi/8]`, the truncated rotated bounding-box dimensions are at least
the original dimensions — so the centering subtractions cannot underflow —
provided the glyph's aspect ratio is bounded by `1 / tan(pi/16)` in both
directions (`w tan(pi/16) ≤ h` and `h tan(pi/16) ≤ w`); the counterexample
shows the bound is needed. -/
theorem C10_amended_no_underflow_bounded_aspect (w h : ℕ) (θ : ℝ)
    (hw : 1 ≤ w) (hh : 1 ≤ h) (hθ : |θ| ≤ Real.pi / 8)
    (har1 : (w : ℝ) * Real.tan (Real.pi / 16) ≤ (h : ℝ))
    (har2 : (h : ℝ) * Real.tan (Real.pi / 16) ≤ (w : ℝ)) :
    (w : ℤ) ≤ ⌊(rotated_rect_size (w : ℝ) (h : ℝ) θ).1⌋ ∧
    (h : ℤ) ≤ ⌊(rotated_rect_size (w : ℝ) (h : ℝ) θ).2⌋ := by
  have hpi := Real.pi_pos
  obtain ⟨hl, hr⟩ := abs_le.mp hθ
  have habs0 : 0 ≤ |θ| := abs_nonneg θ
  have hc : 0 ≤ Real.cos θ :=
    Real.cos_nonneg_of_mem_Icc ⟨by linarith, by linarith⟩
  have hw0 : (0:ℝ) ≤ (w : ℝ) := Nat.cast_nonneg w
  have hh0 : (0:ℝ) ≤ (h : ℝ) := Nat.cast_nonneg h
  rw [rotated_rect_size_eq_of_cos_nonneg _ _ _ hw0 hh0 hc]
  have hcabs : Real.cos θ = Real.cos |θ| := (Real.cos_abs θ).symm
  have hsabs : |Real.sin θ| = Real.sin |θ| := abs_sin_small θ hθ
  constructor
  · apply Int.le_floor.mpr
    push_cast
    have := cos_sin_lower (w : ℝ) (h : ℝ) |θ| hw0 hh0 habs0 hθ har1
    rw [hcabs, hsabs]
    linarith
  · apply Int.le_floor.mpr
    push_cast
    have := cos_sin_lower (h : ℝ) (w : ℝ) |θ| hh0 hw0 habs0 hθ har2
    rw [hcabs, hsabs]
    linarith

/-- C10, witness: a square 10 x 10 glyph at angle 0 (aspect ratio 1, well
inside the bound since `tan(pi/16) < 1`). -/
theorem C10_amended_witness :
    (10 : ℤ) ≤ ⌊(rotated_rect_size ((10:ℕ) : ℝ) ((10:ℕ) : ℝ) 0).1⌋ ∧
    (10 : ℤ) ≤ ⌊(rotated_rect_size ((10:ℕ) : ℝ) ((10:ℕ) : ℝ) 0).2⌋ := by
  have hpi := Real.pi_pos
  have htan : Real.tan (Real.pi / 16) < 1 := by
    have h := Real.tan_lt_tan_of_nonneg_of_lt_pi_div_two
      (x := Real.pi / 16) (y := Real.pi / 4) (by linarith) (by linarith) (by linarith)
    rw [Real.tan_pi_div_four] at h
    exact h
  have har : ((10:ℕ) : ℝ) * Real.tan (Real.pi / 16) ≤ ((10:ℕ) : ℝ) := by
    push_cast
    linarith
  exact C10_amended_no_underflow_bounded_aspect 10 10 0 (by norm_num) (by norm_num)
    (by rw [abs_zero]; linarith) har har

end Captcha
